import Mathlib

set_option maxRecDepth 8000

/-!
Verification of the EasyPdfForYou core pipeline against its specification.

The development shallowly embeds the Python modules
`easypdfforyou/core/translator.py`, `easypdfforyou/core/pdf_extractor.py` and
`easypdfforyou/core/bilingual_generator.py`.  Pure Python functions become Lean
functions; calls to external collaborators (the googletrans client, the
OpenRouter HTTP endpoint, the PyMuPDF page reader) are passed in as oracle
arguments; Python exceptions become `Except` results.  Python `float`
coordinates and averages are modelled by `Rat` (the values compared in the
claims are small integers and exact ratios, where float and rational
comparison coincide).  Python string semantics (`strip`, `split`, `join`,
truthiness of strings) are reproduced by explicit helper functions below.
-/

namespace EasyPdfForYou

/-- Deciding equality of `Except` values, used to state results about
functions that model raising Python exceptions. -/
instance {ε α : Type} [DecidableEq ε] [DecidableEq α] : DecidableEq (Except ε α) := fun a b =>
  match a, b with
  | .ok x, .ok y =>
    if h : x = y then isTrue (by rw [h]) else isFalse (by intro hc; cases hc; exact h rfl)
  | .error x, .error y =>
    if h : x = y then isTrue (by rw [h]) else isFalse (by intro hc; cases hc; exact h rfl)
  | .ok _, .error _ => isFalse (by intro hc; cases hc)
  | .error _, .ok _ => isFalse (by intro hc; cases hc)

/-- The ASCII whitespace characters recognised by Python `str.strip()` and by
the regex class `\s` (the Unicode whitespace also matched by Python does not
occur in this development). -/
def isPyWS (c : Char) : Bool :=
  c = ' ' || c = '\t' || c = '\n' || c = '\r' || c = '\x0b' || c = '\x0c'

/-- Python `str.strip()` on a character list: drop whitespace from both ends. -/
def pyStripList (l : List Char) : List Char :=
  ((l.dropWhile isPyWS).reverse.dropWhile isPyWS).reverse

/-- Python `str.strip()`. -/
def pyStrip (s : String) : String := String.mk (pyStripList s.toList)

/-- Python `sep.join(parts)`. -/
def pyJoin (sep : String) : List String → String
  | [] => ""
  | [s] => s
  | s :: rest => s ++ sep ++ pyJoin sep rest

/-- Python `s.split(sep)` for a one-character separator (helper for
`str.split((Char.ofNat 10).toString)` in the generator): accumulates the
current piece in reverse. -/
def splitOnCharAux (sep : Char) (cur : List Char) : List Char → List (List Char)
  | [] => [cur.reverse]
  | c :: rest =>
    if c = sep then cur.reverse :: splitOnCharAux sep [] rest
    else splitOnCharAux sep (c :: cur) rest

/-! ## Embedding of `core/translator.py` -/

/-- The `TranslationResult` dataclass (translator.py lines 15-26). -/
structure TranslationResult where
  original_text : String
  translated_text : String
  source_lang : String
  target_lang : String
  confidence : Rat
  provider : String
deriving DecidableEq

/-- The table `Translator.LANG_MAPPINGS` (translator.py lines 33-39), in the insertion
order of the Python dict. -/
def LANG_MAPPINGS : List (String × List String) :=
  [("zh-CN", ["zh-CN", "zh", "zh-Hans", "zh_Hans", "chi_sim"]),
   ("zh-TW", ["zh-TW", "zh-Hant", "zh_Hant", "zh-HK", "chi_tra"]),
   ("en", ["en", "eng", "english"]),
   ("ja", ["ja", "jpn", "japanese"]),
   ("ko", ["ko", "kor", "korean"])]

/-- Embeds `Translator._normalize_lang_code` (translator.py lines 87-102). -/
def normalizeLangCode (langCode : String) : String :=
  let c := pyStrip langCode.toLower
  match LANG_MAPPINGS.find? (fun p => (p.2.map String.toLower).contains c) with
  | some p => p.1
  | none => c

/-- The sentence terminators of the split regex
(a period, an exclamation or question mark, or a full-width equivalent). -/
def isSentenceEnd (c : Char) : Bool :=
  c = '.' || c = '!' || c = '?' || c = '。' || c = '！' || c = '？'

/-- The split on sentence boundaries in `Translator._split_text`
(translator.py line 119): a maximal whitespace run immediately preceded by a
sentence terminator separates two pieces and is consumed.  `inSep` records
whether the scan is inside such a whitespace run; `cur` holds the current
piece in reverse. -/
def splitSentAux (inSep : Bool) (cur : List Char) : List Char → List (List Char)
  | [] => [cur.reverse]
  | c :: rest =>
    if inSep then
      if isPyWS c then splitSentAux true cur rest
      else splitSentAux false [c] rest
    else
      if isPyWS c && (match cur with | p :: _ => isSentenceEnd p | [] => false) then
        cur.reverse :: splitSentAux true [] rest
      else splitSentAux false (c :: cur) rest

/-- The list `sentences` of `Translator._split_text` (translator.py line 119). -/
def splitSentences (text : String) : List String :=
  (splitSentAux false [] text.toList).map String.mk

/-- The accumulation loop of `Translator._split_text`
(translator.py lines 121-131): greedily packs sentences into chunks,
stripping each finished chunk. -/
def buildChunks (maxLength : Nat) (chunks : List String) (currentChunk : String) :
    List String → List String
  | [] => if currentChunk ≠ "" then chunks ++ [pyStrip currentChunk] else chunks
  | s :: rest =>
    if currentChunk.length + s.length < maxLength then
      buildChunks maxLength chunks (currentChunk ++ s ++ " ") rest
    else
      buildChunks maxLength
        (if currentChunk ≠ "" then chunks ++ [pyStrip currentChunk] else chunks)
        (s ++ " ") rest

/-- Embeds `Translator._split_text` (translator.py lines 104-133). -/
def splitText (text : String) (maxLength : Nat) : List String :=
  if text.length ≤ maxLength then [text]
  else buildChunks maxLength [] "" (splitSentences text)

/-- Python exceptions raised by the embedded functions. -/
inductive PyError
  /-- An exception raised by a provider call (googletrans or requests). -/
  | providerError
  /-- KeyError or IndexError while reading the OpenRouter response. -/
  | invalidResponse
  /-- ValueError raised for a missing OpenRouter API key. -/
  | missingApiKey
  /-- ValueError raised for a page number outside the document. -/
  | pageOutOfRange
  /-- ZeroDivisionError raised when averaging over zero sampled pages. -/
  | zeroDivision
deriving DecidableEq

/-- The value returned by the googletrans client `translate` call. -/
structure GoogleResponse where
  text : String
  src : String
  confidence : Rat
deriving DecidableEq

/-- Oracle for the googletrans client call, taking the text, the destination
language and the optional source language. -/
def GoogleCall : Type := String → String → Option String → Except PyError GoogleResponse

/-- Embeds `GoogleTranslator.translate` (translator.py lines 163-220).  The
`call` argument is `some` oracle when the googletrans library was imported
(`self._translator` set) and `none` otherwise; an `.error` result models the
re-raised provider exception of lines 218-220. -/
def googleTranslate (call : Option GoogleCall) (text targetLang sourceLang : String) :
    Except PyError TranslationResult :=
  if pyStrip text = "" then
    .ok { original_text := text, translated_text := "", source_lang := sourceLang,
          target_lang := targetLang, confidence := 0, provider := "google" }
  else
    let target := normalizeLangCode targetLang
    let srcLang : Option String :=
      if sourceLang = "auto" then none else some (normalizeLangCode sourceLang)
    match call with
    | some f =>
      match f text target srcLang with
      | .ok r =>
        .ok { original_text := text, translated_text := r.text,
              source_lang := if r.src ≠ "" then r.src else sourceLang,
              target_lang := target, confidence := r.confidence, provider := "google" }
      | .error e => .error e
    | none =>
      .ok { original_text := text, translated_text := text, source_lang := sourceLang,
            target_lang := target, confidence := 0, provider := "google_fallback" }

/-- Embeds `GoogleTranslator.translate_batch` (translator.py lines 222-254): each
per-text exception is caught and replaced by a fallback result carrying the
original text (the `time.sleep` rate limiting has no effect on the values). -/
def googleTranslateBatch (call : Option GoogleCall) (texts : List String)
    (targetLang sourceLang : String) : List TranslationResult :=
  texts.map fun text =>
    match googleTranslate call text targetLang sourceLang with
    | .ok r => r
    | .error _ =>
      { original_text := text, translated_text := text, source_lang := sourceLang,
        target_lang := targetLang, confidence := 0, provider := "google_error" }

/-- Embeds `OpenRouterTranslator.translate` (translator.py lines 333-417).  The
`call` oracle models one chat-completions request for one chunk, returning the
message content; request and response-shape exceptions propagate (lines
401-406), and the translated chunks are rejoined with a single space
(line 408). -/
def openRouterTranslate (apiKey model : String) (call : String → Except PyError String)
    (text targetLang sourceLang : String) : Except PyError TranslationResult :=
  if pyStrip text = "" then
    .ok { original_text := text, translated_text := "", source_lang := sourceLang,
          target_lang := targetLang, confidence := 0, provider := "openrouter" }
  else if apiKey = "" then .error .missingApiKey
  else
    let target := normalizeLangCode targetLang
    let chunks := splitText text 3000
    match chunks.mapM (fun chunk => (call chunk).map pyStrip) with
    | .error e => .error e
    | .ok translatedChunks =>
      .ok { original_text := text, translated_text := pyJoin " " translatedChunks,
            source_lang := sourceLang, target_lang := target, confidence := 9/10,
            provider := "openrouter:" ++ model }

/-- A provider oracle whose call always fails, modelling a mocked provider
failure. -/
def failingGoogleCall : GoogleCall := fun _ _ _ => .error .providerError

/-! ## Embedding of `core/pdf_extractor.py` -/

/-- One span of the PyMuPDF `page.get_text("dict")` output (the fields read
by `extract_page_content`). -/
structure RawSpan where
  text : String
  size : Rat
  font : String
  flags : Nat
deriving DecidableEq

/-- One line of a raw PyMuPDF block. -/
structure RawLine where
  spans : List RawSpan
deriving DecidableEq

/-- One block of `page.get_text("dict")["blocks"]`.  `lines = none` models a
block without a "lines" key (an image block), skipped by the extractor. -/
structure RawBlock where
  x0 : Rat
  y0 : Rat
  x1 : Rat
  y1 : Rat
  lines : Option (List RawLine)
deriving DecidableEq

/-- One entry of `page.get_images(full=True)` together with the metadata
returned by `extract_image` for its xref. -/
structure RawImage where
  xref : Nat
  ext : String
  width : Nat
  height : Nat
deriving DecidableEq

/-- The raw content of one PyMuPDF page, as read by the extractor: the
`get_text("dict")` blocks, the embedded images, the page rectangle and
rotation, and the plain `get_text()` string used by `is_scanned`. -/
structure RawPage where
  width : Rat
  height : Rat
  rotation : Int
  blocks : List RawBlock
  images : List RawImage
  text : String
deriving DecidableEq

/-- The `TextBlock` dataclass (pdf_extractor.py lines 16-27). -/
structure TextBlock where
  text : String
  x0 : Rat
  y0 : Rat
  x1 : Rat
  y1 : Rat
  page_num : Nat
  font_size : Rat
  font_name : String
  is_bold : Bool
deriving DecidableEq

/-- Image metadata dictionary built by `extract_page_content`
(pdf_extractor.py lines 269-279). -/
structure ImageInfo where
  index : Nat
  xref : Nat
  ext : String
  width : Nat
  height : Nat
deriving DecidableEq

/-- The `PageContent` dataclass (pdf_extractor.py lines 55-63). -/
structure PageContent where
  page_num : Nat
  width : Rat
  height : Rat
  text_blocks : List TextBlock
  images : List ImageInfo
  rotation : Int
deriving DecidableEq

/-- Accumulator of the span loop in `extract_page_content`
(pdf_extractor.py lines 239-250). -/
structure SpanAcc where
  parts : List String
  font_size : Rat
  font_name : String
  is_bold : Bool

/-- One iteration of the span loop of `extract_page_content`
(pdf_extractor.py lines 245-250): append the span text, keep the maximal font
size, take the span font name, and accumulate the bold flag (bit 4). -/
def spanStep (a : SpanAcc) (s : RawSpan) : SpanAcc :=
  { parts := a.parts ++ [s.text], font_size := max a.font_size s.size,
    font_name := s.font, is_bold := a.is_bold || decide (s.flags &&& 16 ≠ 0) }

/-- The span loop of `extract_page_content` (pdf_extractor.py lines 244-250),
starting from the initial values of lines 240-242. -/
def foldSpans (spans : List RawSpan) : SpanAcc :=
  spans.foldl spanStep { parts := [], font_size := 12, font_name := "", is_bold := false }

/-- One iteration of the block loop of `extract_page_content`
(pdf_extractor.py lines 235-263): blocks without a "lines" key are skipped,
and a `TextBlock` is appended only when the collected list of span texts is
nonempty (Python truthiness of `block_text_parts`); the block text is the
stripped concatenation of the span texts. -/
def blockToTextBlock (pageNum : Nat) (b : RawBlock) : Option TextBlock :=
  match b.lines with
  | none => none
  | some lines =>
    let acc := foldSpans (lines.flatMap RawLine.spans)
    if acc.parts = [] then none
    else
      some { text := pyStrip (String.join acc.parts), x0 := b.x0, y0 := b.y0,
             x1 := b.x1, y1 := b.y1, page_num := pageNum, font_size := acc.font_size,
             font_name := acc.font_name, is_bold := acc.is_bold }

/-- Whether the block loop keeps a raw block: it has a "lines" key and at
least one span. -/
def keepBlock (b : RawBlock) : Bool :=
  match b.lines with
  | none => false
  | some lines => !(lines.flatMap RawLine.spans).isEmpty

/-- Insertion into a sorted list, placing the new element after every element
that compares `le` to it.  Folding `insertAfterEq` over a list from the left
is a stable sort for a total preorder `le`, which is the semantics of the
Python `list.sort(key=...)` call. -/
def insertAfterEq (le : α → α → Bool) (x : α) : List α → List α
  | [] => [x]
  | y :: ys => if le y x then y :: insertAfterEq le x ys else x :: y :: ys

/-- Python `list.sort` with a comparison key: the stable sort by the total
preorder `le`. -/
def pySort (le : α → α → Bool) (l : List α) : List α :=
  l.foldl (fun acc x => insertAfterEq le x acc) []

/-- The sort key of `extract_page_content` (pdf_extractor.py line 266):
lexicographic comparison of `(y0, x0)`. -/
def blockLE (a b : TextBlock) : Bool :=
  decide (a.y0 < b.y0 ∨ (a.y0 = b.y0 ∧ a.x0 ≤ b.x0))

/-- The image loop of `extract_page_content` (pdf_extractor.py lines 269-279),
with its running `enumerate` index. -/
def imageInfos : List RawImage → Nat → List ImageInfo
  | [], _ => []
  | im :: rest, i =>
    { index := i, xref := im.xref, ext := im.ext, width := im.width,
      height := im.height } :: imageInfos rest (i + 1)

/-- The per-page body of `PdfExtractor.extract_page_content`
(pdf_extractor.py lines 229-288): build the text blocks, sort them by
`(y0, x0)`, and collect the image metadata. -/
def extractPage (page : RawPage) (pageNumber : Nat) : PageContent :=
  { page_num := pageNumber, width := page.width, height := page.height,
    text_blocks := pySort blockLE (page.blocks.filterMap (blockToTextBlock pageNumber)),
    images := imageInfos page.images 0, rotation := page.rotation }

/-- Embeds `PdfExtractor.extract_page_content` (pdf_extractor.py lines 214-288) on an
open document, with the page-range ValueError of line 227 (a negative index
cannot be expressed by the `Nat` argument and does not occur in the claims). -/
def extractPageContent (doc : List RawPage) (pageNumber : Nat) :
    Except PyError PageContent :=
  if h : pageNumber < doc.length then .ok (extractPage (doc.get ⟨pageNumber, h⟩) pageNumber)
  else .error .pageOutOfRange

/-- Embeds `PdfExtractor.is_scanned` (pdf_extractor.py lines 146-172): sample the
first `min(sample_pages, page_count)` pages, average the stripped text length
and the image count, and compare with the thresholds; averaging an empty
sample raises ZeroDivisionError. -/
def isScanned (doc : List RawPage) (samplePages : Int) : Except PyError Bool :=
  let pagesToCheck : Int := min samplePages (doc.length : Int)
  let sampled := doc.take pagesToCheck.toNat
  let textCounts := sampled.map fun p => (pyStrip p.text).length
  let imageCounts := sampled.map fun p => p.images.length
  if textCounts.length = 0 then .error .zeroDivision
  else
    let avgText : Rat := (textCounts.sum : Rat) / (textCounts.length : Rat)
    let avgImages : Rat := (imageCounts.sum : Rat) / (imageCounts.length : Rat)
    .ok (decide (avgText < 100 ∧ avgImages > 0))

/-! ## Embedding of `core/bilingual_generator.py` -/

/-- The reportlab paragraph styles used by the generator. -/
inductive ParaStyle
  /-- The BilingualTitle style of `generate_side_by_side`. -/
  | bilingualTitle
  /-- The Heading2 style used for page headers in `generate_line_by_line`. -/
  | heading2
  /-- The OriginalText and OriginalLine styles. -/
  | originalStyle
  /-- The TranslatedText and TranslatedLine styles. -/
  | translatedStyle
deriving DecidableEq

/-- One element appended to the reportlab `story` list. -/
inductive StoryEntry
  /-- A `Paragraph(text, style)`. -/
  | para (style : ParaStyle) (text : String)
  /-- A `Spacer(w, h)`. -/
  | spacer (w h : Nat)
  /-- A `PageBreak()`. -/
  | pageBreak
deriving DecidableEq

/-- The newline replacement of `generate_side_by_side`
(bilingual_generator.py lines 136 and 141). -/
def replaceBrAux : List Char → List Char
  | [] => []
  | c :: rest =>
    if c = '\n' then '<' :: 'b' :: 'r' :: '/' :: '>' :: replaceBrAux rest
    else c :: replaceBrAux rest

/-- Python `text.replace(chr(10), the br tag)`. -/
def replaceBr (s : String) : String := String.mk (replaceBrAux s.toList)

/-- Python `text.split(chr(10))` as used in `generate_line_by_line`
(bilingual_generator.py lines 207-208). -/
def pySplitLines (s : String) : List String :=
  (splitOnCharAux '\n' [] s.toList).map String.mk

/-- The story entries emitted for one page by `generate_side_by_side`
(bilingual_generator.py lines 129-145); `total` is `len(original_pages)`,
against which the trailing page-break condition is checked. -/
def sideBySidePage (i total : Nat) (orig trans : String) : List StoryEntry :=
  [.para .bilingualTitle ("Page " ++ toString (i + 1)),
   .spacer 1 20,
   .para .originalStyle "<b>Original:</b>",
   .para .originalStyle (replaceBr orig),
   .spacer 1 12,
   .para .translatedStyle "<b>Translation:</b>",
   .para .translatedStyle (replaceBr trans)]
  ++ (if i + 1 < total then [.pageBreak] else [])

/-- The page loop of `generate_side_by_side`: `zip` truncates to the shorter
of the two page lists, `i` is the running `enumerate` index. -/
def sideBySideGo (origPages transPages : List String) (i total : Nat) : List StoryEntry :=
  match origPages, transPages with
  | orig :: os, tr :: ts => sideBySidePage i total orig tr ++ sideBySideGo os ts (i + 1) total
  | _, _ => []

/-- The full story built by `generate_side_by_side`
(bilingual_generator.py lines 67-150); the writing of the story into the
output PDF by `doc.build` is abstracted away. -/
def sideBySideStory (origPages transPages : List String) : List StoryEntry :=
  sideBySideGo origPages transPages 0 origPages.length

/-- The line-interleaving loop of `generate_line_by_line`
(bilingual_generator.py lines 210-214): for each index below the maximum of
the two line counts, emit the original line and then the translated line,
each only when it exists and its stripped form is nonempty. -/
def interleavePage (origLines transLines : List String) : List StoryEntry :=
  (List.range (max origLines.length transLines.length)).flatMap fun j =>
    (match origLines.get? j with
     | some l => if pyStrip l ≠ "" then [.para .originalStyle l] else []
     | none => [])
    ++ (match transLines.get? j with
        | some l => if pyStrip l ≠ "" then [.para .translatedStyle l] else []
        | none => [])

/-- The story entries emitted for one page by `generate_line_by_line`
(bilingual_generator.py lines 202-217). -/
def lineByLinePage (i total : Nat) (orig trans : String) : List StoryEntry :=
  [.para .heading2 ("<b>Page " ++ toString (i + 1) ++ "</b>"), .spacer 1 12]
  ++ interleavePage (pySplitLines orig) (pySplitLines trans)
  ++ (if i + 1 < total then [.pageBreak] else [])

/-- The page loop of `generate_line_by_line`. -/
def lineByLineGo (origPages transPages : List String) (i total : Nat) : List StoryEntry :=
  match origPages, transPages with
  | orig :: os, tr :: ts => lineByLinePage i total orig tr ++ lineByLineGo os ts (i + 1) total
  | _, _ => []

/-- The full story built by `generate_line_by_line`
(bilingual_generator.py lines 152-222). -/
def lineByLineStory (origPages transPages : List String) : List StoryEntry :=
  lineByLineGo origPages transPages 0 origPages.length

/-- The errors raised by `BilingualGenerator.generate` before producing any
output.  Both are `ValueError` in Python, raised at distinct sites with
distinct messages; they correspond to the UnsupportedLayoutError and
MissingInputError of the specification taxonomy. -/
inductive GenError
  /-- ValueError of bilingual_generator.py line 299. -/
  | unsupportedLayout (layout : String)
  /-- ValueError of bilingual_generator.py line 307. -/
  | missingOriginalPdf
deriving DecidableEq

/-- The document produced by a successful `generate` call: a reportlab story
written to the output path, or the original PDF with the translations
overlaid (`generate_overlay_pdf`, whose geometry is abstracted). -/
inductive GeneratedDoc
  /-- Output of `generate_side_by_side` or `generate_line_by_line`. -/
  | reportlabDoc (story : List StoryEntry)
  /-- Output of `generate_overlay_pdf`. -/
  | overlayDoc (originalPdfPath : String) (translatedPages : List String)
deriving DecidableEq

/-- The list `BilingualGenerator.LAYOUTS` (bilingual_generator.py line 36). -/
def LAYOUTS : List String := ["side_by_side", "line_by_line", "overlay"]

/-- Embeds `BilingualGenerator.generate` (bilingual_generator.py lines 275-310): the
layout is validated first, and the overlay layout requires a truthy original
PDF path (Python falsiness of `None` and of the empty string); an `.error`
result is raised before any document is built or written. -/
def generate (origPages transPages : List String) (layout : String)
    (originalPdfPath : Option String) : Except GenError GeneratedDoc :=
  if ¬ LAYOUTS.contains layout then .error (.unsupportedLayout layout)
  else if layout = "side_by_side" then .ok (.reportlabDoc (sideBySideStory origPages transPages))
  else if layout = "line_by_line" then .ok (.reportlabDoc (lineByLineStory origPages transPages))
  else
    match originalPdfPath with
    | none => .error .missingOriginalPdf
    | some p => if p = "" then .error .missingOriginalPdf else .ok (.overlayDoc p transPages)

/-- Entries other than page breaks (the page-section content of a story). -/
def notPageBreak (e : StoryEntry) : Bool := decide (e ≠ .pageBreak)

/-- Whether a story entry is the page header of a side-by-side section. -/
def isTitlePara (e : StoryEntry) : Bool :=
  match e with
  | .para .bilingualTitle _ => true
  | _ => false

/-- Whether a story entry is the page header of a line-by-line section. -/
def isHeadingPara (e : StoryEntry) : Bool :=
  match e with
  | .para .heading2 _ => true
  | _ => false

/-! ## Auxiliary definitions used in statements and fixtures -/

/-- Character-list version of joining with a single space, used to reason
about `pyJoin " "`. -/
def charsJoin : List (List Char) → List Char
  | [] => []
  | [s] => s
  | s :: rest => s ++ ' ' :: charsJoin rest

/-- No position inside the list is a sentence-split point: no sentence
terminator is immediately followed by a whitespace character. -/
def noSplitPoint : List Char → Bool
  | a :: b :: rest => !(isSentenceEnd a && isPyWS b) && noSplitPoint (b :: rest)
  | _ => true

/-- A sentence in the sense of the split regex, over characters: nonempty,
not starting with whitespace, ending with a sentence terminator, and
containing no internal split point. -/
def goodChars : List Char → Bool
  | [] => false
  | c :: cs => !isPyWS c && isSentenceEnd ((c :: cs).getLastD ' ') && noSplitPoint (c :: cs)

/-- A sentence in the sense of the split regex.  A text formed by joining
such sentences with single spaces is split back into exactly these
sentences. -/
def goodSentence (s : String) : Bool := goodChars s.toList

/-- A 2999-character sentence of the letter a, ending in a period. -/
def sentA : String := String.mk (List.replicate 2998 'a' ++ ['.'])

/-- A 2501-character sentence of the letter b, ending in a period. -/
def sentB : String := String.mk (List.replicate 2500 'b' ++ ['.'])

/-- A 5501-character text whose two sentences are separated by a newline. -/
def newlineText : String := sentA ++ "\n" ++ sentB

/-- A single 3001-character sentence with no sentence terminator at all. -/
def longSentence : String := String.mk (List.replicate 3001 'a')

/-- A raw PyMuPDF block holding one line with one span of the given text. -/
def mkTextRawBlock (txt : String) (x0 y0 x1 y1 : Rat) : RawBlock :=
  { x0 := x0, y0 := y0, x1 := x1, y1 := y1, lines := some [⟨[⟨txt, 12, "F", 0⟩]⟩] }

/-- A raw page holding two text blocks A then B with identical bounding
boxes. -/
def pageAB : RawPage :=
  { width := 100, height := 200, rotation := 0,
    blocks := [mkTextRawBlock "A" 0 0 1 1, mkTextRawBlock "B" 0 0 1 1],
    images := [], text := "AB" }

/-- The same two text blocks in the opposite internal order. -/
def pageBA : RawPage :=
  { width := 100, height := 200, rotation := 0,
    blocks := [mkTextRawBlock "B" 0 0 1 1, mkTextRawBlock "A" 0 0 1 1],
    images := [], text := "AB" }

/-- A raw page whose only block has a single span of whitespace text. -/
def pageWS : RawPage :=
  { width := 100, height := 200, rotation := 0,
    blocks := [mkTextRawBlock " " 0 0 1 1], images := [], text := "" }

/-- A raw page with two characters of text and one embedded image. -/
def pageHi : RawPage :=
  { width := 100, height := 200, rotation := 0, blocks := [],
    images := [⟨7, "png", 10, 10⟩], text := "hi" }

/-! ## General lemmas about the generator stories -/

theorem notPageBreak_para (st : ParaStyle) (x : String) : notPageBreak (.para st x) = true := rfl

theorem notPageBreak_spacer (w h : Nat) : notPageBreak (.spacer w h) = true := rfl

theorem notPageBreak_pageBreak : notPageBreak .pageBreak = false := rfl

theorem isTitlePara_para_title (x : String) : isTitlePara (.para .bilingualTitle x) = true := rfl

theorem isHeadingPara_para_heading (x : String) : isHeadingPara (.para .heading2 x) = true := rfl

theorem sideBySideGo_nil_left (t : List String) (i total : Nat) :
    sideBySideGo [] t i total = [] := by cases t <;> rfl

theorem sideBySideGo_nil_right (o : List String) (i total : Nat) :
    sideBySideGo o [] i total = [] := by cases o <;> rfl

theorem sideBySideGo_cons (a b : String) (as bs : List String) (i total : Nat) :
    sideBySideGo (a :: as) (b :: bs) i total =
      sideBySidePage i total a b ++ sideBySideGo as bs (i + 1) total := rfl

theorem lineByLineGo_nil_left (t : List String) (i total : Nat) :
    lineByLineGo [] t i total = [] := by cases t <;> rfl

theorem lineByLineGo_nil_right (o : List String) (i total : Nat) :
    lineByLineGo o [] i total = [] := by cases o <;> rfl

theorem lineByLineGo_cons (a b : String) (as bs : List String) (i total : Nat) :
    lineByLineGo (a :: as) (b :: bs) i total =
      lineByLinePage i total a b ++ lineByLineGo as bs (i + 1) total := rfl

/-- Every entry emitted by the interleaving loop is a paragraph in the
original or translated line style, with non-blank stripped text. -/
theorem mem_interleavePage {origLines transLines : List String} {e : StoryEntry}
    (he : e ∈ interleavePage origLines transLines) :
    ∃ txt, (e = .para .originalStyle txt ∨ e = .para .translatedStyle txt) ∧
      pyStrip txt ≠ "" := by
  simp only [interleavePage, List.mem_flatMap, List.mem_range] at he
  obtain ⟨j, _, he⟩ := he
  rcases List.mem_append.1 he with h | h
  · revert h
    cases origLines.get? j with
    | none => simp
    | some l =>
      by_cases hl : pyStrip l ≠ "" <;> simp [hl]
      intro he2
      exact ⟨l, Or.inl he2, hl⟩
  · revert h
    cases transLines.get? j with
    | none => simp
    | some l =>
      by_cases hl : pyStrip l ≠ "" <;> simp [hl]
      intro he2
      exact ⟨l, Or.inr he2, hl⟩

/-! ## Claim C1 -/

/-- C1 counterexample: with a provider whose call fails, `translate` itself
re-raises the provider exception instead of returning a result with the
original text, so the claim that `translate` never raises for a provider-level
failure is false at the input text "hello". -/
theorem google_translate_raises_on_provider_failure :
    googleTranslate (some failingGoogleCall) "hello" "zh-CN" "auto" = .error .providerError := by
  decide

/-- C1 (amended): with a provider whose every call fails, `translate_batch`
never raises and returns one result per text whose translated text is the
original text, except that whitespace-only texts short-circuit before the
provider call and carry an empty translated text; the non-raising fallback
inside `translate` itself applies only when the provider library is
unavailable (`call = none`), where the original text is returned. -/
theorem google_batch_fallback_spec (texts : List String) (targetLang sourceLang : String) :
    (googleTranslateBatch (some failingGoogleCall) texts targetLang sourceLang).map
        (fun r => (r.original_text, r.translated_text)) =
      texts.map (fun t => (t, if pyStrip t = "" then "" else t))
    ∧ ∀ text : String, pyStrip text ≠ "" →
        googleTranslate none text targetLang sourceLang =
          .ok ⟨text, text, sourceLang, normalizeLangCode targetLang, 0, "google_fallback"⟩ := by
  constructor
  · simp only [googleTranslateBatch, List.map_map]
    apply List.map_congr_left
    intro t _
    by_cases h : pyStrip t = "" <;>
      simp [googleTranslate, h, failingGoogleCall, Function.comp]
  · intro text h
    simp [googleTranslate, h]

/-- C1 witness: the amended theorem applied to the text "hi". -/
theorem google_batch_fallback_spec_witness :
    pyStrip "hi" ≠ "" ∧
      googleTranslate none "hi" "en" "auto" =
        .ok ⟨"hi", "hi", "auto", normalizeLangCode "en", 0, "google_fallback"⟩ :=
  ⟨by decide, (google_batch_fallback_spec [] "en" "auto").2 "hi" (by decide)⟩

/-! ## Claim C6 -/

/-- C6 counterexample: on the whitespace-only input " " the short-circuit
returns an empty translated text, not the original text (the claim that
`translated_text` equals the original fails, since the empty string differs
from " "). -/
theorem translate_whitespace_returns_empty :
    googleTranslate (some failingGoogleCall) " " "en" "auto" =
        .ok ⟨" ", "", "auto", "en", 0, "google"⟩
      ∧ ("" : String) ≠ " " := by
  constructor
  · decide
  · decide

/-- C6 (amended): empty or whitespace-only input short-circuits both
providers before any provider call (the result does not depend on the call
oracle), returning a result whose translated text is the empty string — equal
to the original text only when the original is itself empty. -/
theorem translate_empty_shortcircuit (call : Option GoogleCall)
    (orCall : String → Except PyError String)
    (apiKey model text targetLang sourceLang : String) (h : pyStrip text = "") :
    googleTranslate call text targetLang sourceLang =
        .ok ⟨text, "", sourceLang, targetLang, 0, "google"⟩
      ∧ openRouterTranslate apiKey model orCall text targetLang sourceLang =
        .ok ⟨text, "", sourceLang, targetLang, 0, "openrouter"⟩ := by
  constructor
  · simp [googleTranslate, h]
  · simp [openRouterTranslate, h]

/-- C6 witness: the amended theorem applied to the whitespace-only text " "
with a failing provider oracle. -/
theorem translate_empty_shortcircuit_witness :
    pyStrip " " = "" ∧
      googleTranslate (some failingGoogleCall) " " "en" "auto" =
        .ok ⟨" ", "", "auto", "en", 0, "google"⟩ :=
  ⟨by decide,
   (translate_empty_shortcircuit (some failingGoogleCall) (fun _ => .error .providerError)
      "k" "m" " " "en" "auto" (by decide)).1⟩

/-! ## Claim C7 -/

/-- C7: `generate` rejects a layout outside the supported set with the
unsupported-layout error, and rejects the overlay layout without an original
PDF reference with the missing-input error; in both cases the `.error` result
is produced before any document is built, so no output is written. -/
theorem generate_validation_before_output (origPages transPages : List String)
    (layout : String) (path : Option String) :
    (LAYOUTS.contains layout = false →
        generate origPages transPages layout path = .error (.unsupportedLayout layout))
      ∧ generate origPages transPages "overlay" none = .error .missingOriginalPdf := by
  constructor
  · intro h
    have hm : layout ∉ LAYOUTS := by simpa using h
    have h' : ¬ (LAYOUTS.contains layout = true) := by simpa using hm
    simp only [generate, if_pos h']
  · rfl

/-- C7 witness: the theorem applied to the unsupported layout "triangle". -/
theorem generate_validation_before_output_witness :
    LAYOUTS.contains "triangle" = false ∧
      generate [] [] "triangle" none = .error (.unsupportedLayout "triangle") :=
  ⟨by decide, (generate_validation_before_output [] [] "triangle" none).1 (by decide)⟩

/-! ## Claim C8 -/

/-- C8: the line-by-line layout interleaves by line index — original line i,
when present and non-blank, immediately followed by translated line i, when
present and non-blank — up to the maximum of the two line counts, and every
emitted entry is a paragraph with non-blank stripped text (blank lines are
suppressed); on the scenario original "A\nB", translated "X\n\nY" the story is
exactly A, X, B, Y with no blank-line artifacts. -/
theorem line_by_line_interleave_spec :
    (lineByLineStory ["A\nB"] ["X\n\nY"] =
        [.para .heading2 "<b>Page 1</b>", .spacer 1 12,
         .para .originalStyle "A", .para .translatedStyle "X",
         .para .originalStyle "B", .para .translatedStyle "Y"])
      ∧ ∀ (origLines transLines : List String) (e : StoryEntry),
          e ∈ interleavePage origLines transLines →
            ∃ st txt, e = .para st txt ∧ pyStrip txt ≠ "" := by
  constructor
  · decide
  · intro origLines transLines e he
    obtain ⟨txt, htxt, hne⟩ := mem_interleavePage he
    rcases htxt with h | h
    · exact ⟨.originalStyle, txt, h, hne⟩
    · exact ⟨.translatedStyle, txt, h, hne⟩

/-- C8 witness: the blank-suppression part of the theorem applied to the
concrete entry emitted for original line "A" and translated line "X". -/
theorem line_by_line_interleave_spec_witness :
    (StoryEntry.para .originalStyle "A") ∈ interleavePage ["A"] ["X"] ∧
      ∃ st txt, (StoryEntry.para .originalStyle "A") = .para st txt ∧ pyStrip txt ≠ "" :=
  ⟨by decide, line_by_line_interleave_spec.2 ["A"] ["X"] _ (by decide)⟩

/-! ## Claim C10 -/

theorem filter_sideBySidePage (i T : Nat) (a b : String) :
    (sideBySidePage i T a b).filter notPageBreak =
      [.para .bilingualTitle ("Page " ++ toString (i + 1)), .spacer 1 20,
       .para .originalStyle "<b>Original:</b>", .para .originalStyle (replaceBr a),
       .spacer 1 12, .para .translatedStyle "<b>Translation:</b>",
       .para .translatedStyle (replaceBr b)] := by
  by_cases h : i + 1 < T <;>
    simp [sideBySidePage, h, List.filter_append, List.filter_cons,
      notPageBreak_para, notPageBreak_spacer, notPageBreak_pageBreak]

theorem filter_interleavePage (a b : List String) :
    (interleavePage a b).filter notPageBreak = interleavePage a b := by
  rw [List.filter_eq_self]
  intro e he
  obtain ⟨txt, htxt, _⟩ := mem_interleavePage he
  rcases htxt with h | h <;> subst h <;> rfl

theorem filter_lineByLinePage (i T : Nat) (a b : String) :
    (lineByLinePage i T a b).filter notPageBreak =
      [.para .heading2 ("<b>Page " ++ toString (i + 1) ++ "</b>"), .spacer 1 12]
        ++ interleavePage (pySplitLines a) (pySplitLines b) := by
  by_cases h : i + 1 < T <;>
    simp [lineByLinePage, h, List.filter_append, List.filter_cons,
      notPageBreak_para, notPageBreak_spacer, notPageBreak_pageBreak, filter_interleavePage]

theorem filter_sideBySideGo_total : ∀ (o t : List String) (i T1 T2 : Nat),
    (sideBySideGo o t i T1).filter notPageBreak = (sideBySideGo o t i T2).filter notPageBreak := by
  intro o
  induction o with
  | nil => intro t i T1 T2; simp [sideBySideGo_nil_left]
  | cons a as ih =>
    intro t i T1 T2
    cases t with
    | nil => simp [sideBySideGo_nil_right]
    | cons b bs =>
      simp only [sideBySideGo_cons, List.filter_append]
      rw [filter_sideBySidePage, filter_sideBySidePage, ih]

theorem filter_lineByLineGo_total : ∀ (o t : List String) (i T1 T2 : Nat),
    (lineByLineGo o t i T1).filter notPageBreak = (lineByLineGo o t i T2).filter notPageBreak := by
  intro o
  induction o with
  | nil => intro t i T1 T2; simp [lineByLineGo_nil_left]
  | cons a as ih =>
    intro t i T1 T2
    cases t with
    | nil => simp [lineByLineGo_nil_right]
    | cons b bs =>
      simp only [lineByLineGo_cons, List.filter_append]
      rw [filter_lineByLinePage, filter_lineByLinePage, ih]

theorem sideBySideGo_take : ∀ (o t : List String) (i T : Nat),
    sideBySideGo o t i T =
      sideBySideGo (o.take (min o.length t.length)) (t.take (min o.length t.length)) i T := by
  intro o
  induction o with
  | nil => intro t i T; simp [sideBySideGo_nil_left]
  | cons a as ih =>
    intro t i T
    cases t with
    | nil => simp [sideBySideGo_nil_right]
    | cons b bs =>
      simp only [List.length_cons, Nat.succ_min_succ, List.take_succ_cons, sideBySideGo_cons]
      rw [← ih]

theorem lineByLineGo_take : ∀ (o t : List String) (i T : Nat),
    lineByLineGo o t i T =
      lineByLineGo (o.take (min o.length t.length)) (t.take (min o.length t.length)) i T := by
  intro o
  induction o with
  | nil => intro t i T; simp [lineByLineGo_nil_left]
  | cons a as ih =>
    intro t i T
    cases t with
    | nil => simp [lineByLineGo_nil_right]
    | cons b bs =>
      simp only [List.length_cons, Nat.succ_min_succ, List.take_succ_cons, lineByLineGo_cons]
      rw [← ih]

theorem countP_title_sideBySidePage (i T : Nat) (a b : String) :
    (sideBySidePage i T a b).countP isTitlePara = 1 := by
  by_cases h : i + 1 < T <;>
    simp [sideBySidePage, h, List.countP_append, List.countP_cons, isTitlePara]

theorem countP_heading_interleavePage (a b : List String) :
    (interleavePage a b).countP isHeadingPara = 0 := by
  rw [List.countP_eq_zero]
  intro e he
  obtain ⟨txt, htxt, _⟩ := mem_interleavePage he
  rcases htxt with h | h <;> subst h <;> simp [isHeadingPara]

theorem countP_heading_lineByLinePage (i T : Nat) (a b : String) :
    (lineByLinePage i T a b).countP isHeadingPara = 1 := by
  by_cases h : i + 1 < T <;>
    simp [lineByLinePage, h, List.countP_append, List.countP_cons, isHeadingPara,
      countP_heading_interleavePage]

theorem countP_title_sideBySideGo : ∀ (o t : List String) (i T : Nat),
    (sideBySideGo o t i T).countP isTitlePara = min o.length t.length := by
  intro o
  induction o with
  | nil => intro t i T; simp [sideBySideGo_nil_left]
  | cons a as ih =>
    intro t i T
    cases t with
    | nil => simp [sideBySideGo_nil_right]
    | cons b bs =>
      simp only [sideBySideGo_cons, List.countP_append, countP_title_sideBySidePage, ih,
        List.length_cons, Nat.succ_min_succ]
      omega

theorem countP_heading_lineByLineGo : ∀ (o t : List String) (i T : Nat),
    (lineByLineGo o t i T).countP isHeadingPara = min o.length t.length := by
  intro o
  induction o with
  | nil => intro t i T; simp [lineByLineGo_nil_left]
  | cons a as ih =>
    intro t i T
    cases t with
    | nil => simp [lineByLineGo_nil_right]
    | cons b bs =>
      simp only [lineByLineGo_cons, List.countP_append, countP_heading_lineByLinePage, ih,
        List.length_cons, Nat.succ_min_succ]
      omega

/-- C10: both the side-by-side and the line-by-line generators emit exactly
`min(len(original_pages), len(translated_pages))` page sections (counted by
their page headers), and apart from page breaks their stories are identical
to the stories built from the two lists truncated to that length — the excess
entries of the longer list contribute nothing to the output content. -/
theorem generators_truncate_to_min (o t : List String) :
    ((sideBySideStory o t).filter notPageBreak =
        (sideBySideStory (o.take (min o.length t.length))
          (t.take (min o.length t.length))).filter notPageBreak
      ∧ (sideBySideStory o t).countP isTitlePara = min o.length t.length)
    ∧ ((lineByLineStory o t).filter notPageBreak =
        (lineByLineStory (o.take (min o.length t.length))
          (t.take (min o.length t.length))).filter notPageBreak
      ∧ (lineByLineStory o t).countP isHeadingPara = min o.length t.length) := by
  refine ⟨⟨?_, ?_⟩, ?_, ?_⟩
  · rw [sideBySideStory, sideBySideStory, sideBySideGo_take o t 0 o.length]
    exact filter_sideBySideGo_total _ _ 0 o.length _
  · exact countP_title_sideBySideGo o t 0 o.length
  · rw [lineByLineStory, lineByLineStory, lineByLineGo_take o t 0 o.length]
    exact filter_lineByLineGo_total _ _ 0 o.length _
  · exact countP_heading_lineByLineGo o t 0 o.length

/-! ## Claim C4 -/

/-- C4 counterexample: with `sample_pages = 0` on a one-page document,
`is_scanned` raises ZeroDivisionError when averaging over the empty sample
instead of returning a boolean, so the claim quantified over every
`sample_pages` value is false. -/
theorem isScanned_zero_sample_error :
    isScanned [pageHi] 0 = .error .zeroDivision ∧ ∀ b : Bool, isScanned [pageHi] 0 ≠ .ok b := by
  refine ⟨by decide, ?_⟩
  intro b hb
  have h1 : isScanned [pageHi] 0 = .error .zeroDivision := by decide
  rw [h1] at hb
  exact Except.noConfusion hb

/-- C4 (amended): whenever `min(sample_pages, page_count)` is at least one,
`is_scanned` samples exactly the first `min(sample_pages, page_count)` pages
and returns true if and only if the total stripped text length of the sampled
pages is below 100 per sampled page (average strictly less than 100) and the
sampled pages contain at least one embedded image (average image count
strictly positive); when the sample is empty the code instead raises
ZeroDivisionError. -/
theorem isScanned_threshold_spec (doc : List RawPage) (samplePages : Int)
    (h : 0 < min samplePages (doc.length : Int)) :
    isScanned doc samplePages =
      .ok (decide
        ((((doc.take (min samplePages (doc.length : Int)).toNat).map
            (fun p => (pyStrip p.text).length)).sum
            < 100 * (min samplePages (doc.length : Int)).toNat)
          ∧ 0 < (((doc.take (min samplePages (doc.length : Int)).toNat).map
            (fun p => p.images.length)).sum))) := by
  have hkle : (min samplePages (doc.length : Int)).toNat ≤ doc.length := by omega
  have hlen : (doc.take (min samplePages (doc.length : Int)).toNat).length
      = (min samplePages (doc.length : Int)).toNat := by
    rw [List.length_take]; omega
  have hKnat : 0 < (min samplePages (doc.length : Int)).toNat := by omega
  have hKQ : (0:ℚ) < ((min samplePages (doc.length : Int)).toNat : ℚ) := by
    exact_mod_cast hKnat
  simp only [isScanned, List.length_map, hlen]
  rw [if_neg (by omega)]
  congr 1
  rw [decide_eq_decide]
  refine and_congr ?_ ?_
  · rw [div_lt_iff₀ hKQ]
    exact_mod_cast Iff.rfl
  · rw [gt_iff_lt, lt_div_iff₀ hKQ, zero_mul]
    exact_mod_cast Iff.rfl

/-- C4 witness: the amended theorem applied to a one-page document with two
characters of text and one embedded image, sampled with the default
`sample_pages = 3`: classified as scanned. -/
theorem isScanned_threshold_spec_witness :
    0 < min 3 (([pageHi].length : Int)) ∧ isScanned [pageHi] 3 = .ok true := by
  refine ⟨by decide, ?_⟩
  rw [isScanned_threshold_spec [pageHi] 3 (by decide)]
  decide

/-! ## General lemmas about the stable sort of the extractor -/

theorem mem_insertAfterEq {le : α → α → Bool} {x a : α} :
    ∀ {l : List α}, a ∈ insertAfterEq le x l ↔ a = x ∨ a ∈ l := by
  intro l
  induction l with
  | nil => simp [insertAfterEq]
  | cons y ys ih =>
    by_cases h : le y x
    · simp [insertAfterEq, h, ih]
      tauto
    · simp [insertAfterEq, h, ih]

theorem length_insertAfterEq (le : α → α → Bool) (x : α) :
    ∀ (l : List α), (insertAfterEq le x l).length = l.length + 1 := by
  intro l
  induction l with
  | nil => rfl
  | cons y ys ih =>
    by_cases h : le y x <;> simp [insertAfterEq, h, ih]

theorem pairwise_insertAfterEq {le : α → α → Bool}
    (htrans : ∀ a b c, le a b = true → le b c = true → le a c = true)
    (htotal : ∀ a b, le a b = true ∨ le b a = true) (x : α) :
    ∀ {l : List α}, l.Pairwise (fun a b => le a b = true) →
      (insertAfterEq le x l).Pairwise (fun a b => le a b = true) := by
  intro l
  induction l with
  | nil => intro _; simp [insertAfterEq]
  | cons y ys ih =>
    intro hp
    rw [List.pairwise_cons] at hp
    obtain ⟨hy, hys⟩ := hp
    have hxy : le y x = true ∨ le x y = true := by
      rcases htotal y x with h | h
      · exact Or.inl h
      · exact Or.inr h
    by_cases h : le y x = true
    · rw [insertAfterEq, if_pos h, List.pairwise_cons]
      refine ⟨?_, ih hys⟩
      intro z hz
      rcases mem_insertAfterEq.1 hz with rfl | hz2
      · exact h
      · exact hy z hz2
    · have hxy2 : le x y = true := by
        rcases hxy with h1 | h1
        · exact absurd h1 h
        · exact h1
      rw [insertAfterEq, if_neg h, List.pairwise_cons]
      refine ⟨?_, List.Pairwise.cons hy hys⟩
      intro z hz
      rcases List.mem_cons.1 hz with rfl | hz2
      · exact hxy2
      · exact htrans x y z hxy2 (hy z hz2)

theorem mem_foldl_insert {le : α → α → Bool} {a : α} :
    ∀ (l acc : List α),
      (a ∈ l.foldl (fun acc x => insertAfterEq le x acc) acc ↔ a ∈ acc ∨ a ∈ l) := by
  intro l
  induction l with
  | nil => intro acc; simp
  | cons x xs ih =>
    intro acc
    rw [List.foldl_cons, ih, mem_insertAfterEq]
    simp
    tauto

theorem length_foldl_insert {le : α → α → Bool} :
    ∀ (l acc : List α),
      (l.foldl (fun acc x => insertAfterEq le x acc) acc).length = acc.length + l.length := by
  intro l
  induction l with
  | nil => intro acc; simp
  | cons x xs ih =>
    intro acc
    rw [List.foldl_cons, ih, length_insertAfterEq]
    simp only [List.length_cons]
    omega

theorem pairwise_foldl_insert {le : α → α → Bool}
    (htrans : ∀ a b c, le a b = true → le b c = true → le a c = true)
    (htotal : ∀ a b, le a b = true ∨ le b a = true) :
    ∀ (l acc : List α), acc.Pairwise (fun a b => le a b = true) →
      (l.foldl (fun acc x => insertAfterEq le x acc) acc).Pairwise
        (fun a b => le a b = true) := by
  intro l
  induction l with
  | nil => intro acc h; simpa using h
  | cons x xs ih =>
    intro acc h
    rw [List.foldl_cons]
    exact ih _ (pairwise_insertAfterEq htrans htotal x h)

theorem mem_pySort {le : α → α → Bool} {a : α} {l : List α} :
    a ∈ pySort le l ↔ a ∈ l := by
  rw [pySort, mem_foldl_insert]
  simp

theorem length_pySort {le : α → α → Bool} (l : List α) :
    (pySort le l).length = l.length := by
  rw [pySort, length_foldl_insert]
  simp

theorem pairwise_pySort {le : α → α → Bool}
    (htrans : ∀ a b c, le a b = true → le b c = true → le a c = true)
    (htotal : ∀ a b, le a b = true ∨ le b a = true) (l : List α) :
    (pySort le l).Pairwise (fun a b => le a b = true) :=
  pairwise_foldl_insert htrans htotal l [] (by simp)

theorem blockLE_trans (a b c : TextBlock) (h1 : blockLE a b = true) (h2 : blockLE b c = true) :
    blockLE a c = true := by
  simp only [blockLE, decide_eq_true_eq] at h1 h2 ⊢
  rcases h1 with h1 | ⟨h1e, h1x⟩ <;> rcases h2 with h2 | ⟨h2e, h2x⟩
  · exact Or.inl (lt_trans h1 h2)
  · exact Or.inl (h2e ▸ h1)
  · exact Or.inl (h1e ▸ h2)
  · exact Or.inr ⟨h1e.trans h2e, le_trans h1x h2x⟩

theorem blockLE_total (a b : TextBlock) : blockLE a b = true ∨ blockLE b a = true := by
  simp only [blockLE, decide_eq_true_eq]
  rcases lt_trichotomy a.y0 b.y0 with h | h | h
  · exact Or.inl (Or.inl h)
  · rcases le_total a.x0 b.x0 with hx | hx
    · exact Or.inl (Or.inr ⟨h, hx⟩)
    · exact Or.inr (Or.inr ⟨h.symm, hx⟩)
  · exact Or.inr (Or.inl h)

/-! ## Claim C3 -/

/-- C3 counterexample: two raw blocks with identical bounding boxes and texts
"A" and "B" are returned in their source order by the stable sort, so two
documents holding the same blocks in different internal orders extract
different block orders — the extracted order is not independent of the source
internal block order. -/
theorem extract_order_depends_on_source_order :
    (extractPageContent [pageAB] 0).toOption.map (fun pc => pc.text_blocks.map TextBlock.text)
        = some ["A", "B"]
      ∧ (extractPageContent [pageBA] 0).toOption.map (fun pc => pc.text_blocks.map TextBlock.text)
        = some ["B", "A"] := by
  constructor <;> decide

/-- C3 (amended): for every raw page, the extracted `TextBlock` sequence is
sorted by `(y0, x0)` ascending, and extraction is a pure function of the raw
page content, so re-extracting the same page of the same PDF yields the
identical block order; blocks with equal `(y0, x0)`, however, keep their
source order (stable sort), so the order is not independent of the internal
block order of the source PDF. -/
theorem extract_blocks_sorted (page : RawPage) (pn : Nat) :
    (extractPage page pn).text_blocks.Pairwise (fun a b => blockLE a b = true) := by
  rw [extractPage]
  exact pairwise_pySort blockLE_trans blockLE_total _

/-! ## Claim C9 -/

theorem foldl_spanStep_parts :
    ∀ (spans : List RawSpan) (acc : SpanAcc),
      (spans.foldl spanStep acc).parts = acc.parts ++ spans.map RawSpan.text := by
  intro spans
  induction spans with
  | nil => intro acc; simp
  | cons s ss ih =>
    intro acc
    rw [List.foldl_cons, ih]
    simp [spanStep]

theorem blockToTextBlock_isSome (pn : Nat) (b : RawBlock) :
    (blockToTextBlock pn b).isSome = keepBlock b := by
  rw [blockToTextBlock, keepBlock]
  cases b.lines with
  | none => rfl
  | some lines =>
    simp only [foldSpans, foldl_spanStep_parts, List.nil_append]
    by_cases h : (lines.flatMap RawLine.spans) = [] <;> simp [h]

theorem length_filterMap_eq_length_filter {α β : Type} {f : α → Option β} :
    ∀ (l : List α), (l.filterMap f).length = (l.filter (fun a => (f a).isSome)).length := by
  intro l
  induction l with
  | nil => rfl
  | cons a as ih =>
    cases h : f a <;> simp [List.filterMap_cons, h, List.filter_cons, ih]

/-- C9 counterexample: a raw block holding a single span of whitespace text is
kept (the Python code only tests that the list of span texts is nonempty), so
the extracted page contains a `TextBlock` whose text is empty after trimming —
such blocks are not discarded. -/
theorem whitespace_block_not_discarded :
    (extractPageContent [pageWS] 0).toOption.map (fun pc => pc.text_blocks.map TextBlock.text)
      = some [""] := by
  decide

/-- C9 (amended): a raw block is discarded exactly when it has no "lines" key
or contains no span at all; blocks whose concatenated span text is empty after
trimming are retained (with empty text).  The `(y0, x0)` sort is applied after
this filtering, and every extracted block arises from some raw block of the
page. -/
theorem extract_block_discard_spec (page : RawPage) (pn : Nat) :
    (extractPage page pn).text_blocks.length = (page.blocks.filter keepBlock).length
      ∧ ∀ tb ∈ (extractPage page pn).text_blocks,
          ∃ b ∈ page.blocks, blockToTextBlock pn b = some tb := by
  constructor
  · rw [extractPage]
    rw [length_pySort, length_filterMap_eq_length_filter]
    congr 1
    apply List.filter_congr
    intro b _
    rw [blockToTextBlock_isSome]
  · intro tb htb
    rw [extractPage] at htb
    rw [mem_pySort] at htb
    exact List.mem_filterMap.1 htb

/-- C9 witness: the raw-block origin part of the theorem applied to the first
extracted block of the two-block fixture page. -/
theorem extract_block_discard_spec_witness :
    (⟨"A", 0, 0, 1, 1, 0, 12, "F", false⟩ : TextBlock) ∈ (extractPage pageAB 0).text_blocks ∧
      ∃ b ∈ pageAB.blocks,
        blockToTextBlock 0 b = some ⟨"A", 0, 0, 1, 1, 0, 12, "F", false⟩ :=
  ⟨by decide, (extract_block_discard_spec pageAB 0).2 _ (by decide)⟩

/-! ## General lemmas about Python string primitives -/

theorem length_mk (l : List Char) : (String.mk l).length = l.length := rfl

theorem toList_mk (l : List Char) : (String.mk l).toList = l := rfl

theorem mk_toList (s : String) : String.mk s.toList = s := rfl

theorem toList_append (s t : String) : (s ++ t).toList = s.toList ++ t.toList :=
  String.data_append s t

theorem space_toList : (" " : String).toList = [' '] := rfl

theorem str_length_toList (s : String) : s.length = s.toList.length := rfl

theorem append_space_ne_empty (s : String) : s ++ " " ≠ "" := by
  intro h
  have h2 : (s ++ " ").toList = ("" : String).toList := by rw [h]
  rw [toList_append] at h2
  simp at h2

theorem length_dropWhile_le (p : α → Bool) : ∀ (l : List α), (l.dropWhile p).length ≤ l.length := by
  intro l
  induction l with
  | nil => simp
  | cons a as ih =>
    by_cases h : p a = true
    · rw [List.dropWhile_cons, if_pos h]
      simp only [List.length_cons]
      omega
    · rw [List.dropWhile_cons, if_neg h]

theorem dropWhile_eq_self_of_all (p : α → Bool) (l : List α) (h : ∀ x ∈ l, p x = false) :
    l.dropWhile p = l := by
  cases l with
  | nil => rfl
  | cons x xs => rw [List.dropWhile_cons, if_neg (by simp [h x (by simp)])]

theorem pyStripList_length_le (l : List Char) : (pyStripList l).length ≤ l.length := by
  rw [pyStripList]
  have h1 := length_dropWhile_le isPyWS l
  have h2 := length_dropWhile_le isPyWS (l.dropWhile isPyWS).reverse
  simp only [List.length_reverse] at h1 h2 ⊢
  omega

theorem pyStrip_length_le (s : String) : (pyStrip s).length ≤ s.length :=
  pyStripList_length_le s.toList

theorem pyStripList_append_space_length (l : List Char) :
    (pyStripList (l ++ [' '])).length ≤ l.length := by
  rw [pyStripList, List.dropWhile_append]
  by_cases h : (l.dropWhile isPyWS).isEmpty = true
  · rw [if_pos h]
    have h0 : List.dropWhile isPyWS [' '] = [] := rfl
    rw [h0]
    simp
  · rw [if_neg h, List.reverse_append]
    have h0 : ([' '] : List Char).reverse = [' '] := rfl
    rw [h0, List.singleton_append, List.dropWhile_cons, if_pos (show isPyWS ' ' = true from rfl)]
    have h1 := length_dropWhile_le isPyWS ((l.dropWhile isPyWS).reverse)
    have h2 := length_dropWhile_le isPyWS l
    simp only [List.length_reverse] at h1 h2 ⊢
    omega

theorem pyStrip_append_space_length (s : String) : (pyStrip (s ++ " ")).length ≤ s.length := by
  show (pyStripList (s ++ " ").toList).length ≤ s.length
  rw [toList_append, space_toList]
  exact pyStripList_append_space_length s.toList

theorem pyStripList_no_ws_space (l : List Char) (h : ∀ c ∈ l, isPyWS c = false) :
    pyStripList (l ++ [' ']) = l := by
  cases l with
  | nil => rfl
  | cons c m =>
    have hc : isPyWS c = false := h c (by simp)
    rw [pyStripList, List.cons_append, List.dropWhile_cons, if_neg (by simp [hc])]
    have hrev : (c :: (m ++ [' '])).reverse = ' ' :: (m.reverse ++ [c]) := by simp
    rw [hrev, List.dropWhile_cons, if_pos (show isPyWS ' ' = true from rfl)]
    rw [dropWhile_eq_self_of_all isPyWS (m.reverse ++ [c]) ?hall]
    · simp
    case hall =>
      intro x hx
      rcases List.mem_append.1 hx with hx | hx
      · exact h x (List.mem_cons_of_mem c (List.mem_reverse.1 hx))
      · have hxc : x = c := by simpa using hx
        rw [hxc]
        exact hc

theorem pyStrip_no_ws_space (s : String) (h : ∀ c ∈ s.toList, isPyWS c = false) :
    pyStrip (s ++ " ") = s := by
  show String.mk (pyStripList (s ++ " ").toList) = s
  rw [toList_append, space_toList, pyStripList_no_ws_space s.toList h]
  exact mk_toList s

theorem splitSentAux_nil (inSep : Bool) (cur : List Char) :
    splitSentAux inSep cur [] = [cur.reverse] := by
  cases inSep <;> rfl

theorem splitSentAux_cons_false (c : Char) (cur rest : List Char) :
    splitSentAux false cur (c :: rest) =
      if isPyWS c && (match cur with | p :: _ => isSentenceEnd p | [] => false) then
        cur.reverse :: splitSentAux true [] rest
      else splitSentAux false (c :: cur) rest := rfl

theorem splitSentAux_cons_true (c : Char) (cur rest : List Char) :
    splitSentAux true cur (c :: rest) =
      if isPyWS c then splitSentAux true cur rest
      else splitSentAux false [c] rest := rfl

theorem buildChunks_nil (maxLength : Nat) (chunks : List String) (current : String) :
    buildChunks maxLength chunks current [] =
      if current ≠ "" then chunks ++ [pyStrip current] else chunks := rfl

theorem buildChunks_cons (maxLength : Nat) (chunks : List String) (current s : String)
    (rest : List String) :
    buildChunks maxLength chunks current (s :: rest) =
      if current.length + s.length < maxLength then
        buildChunks maxLength chunks (current ++ s ++ " ") rest
      else
        buildChunks maxLength
          (if current ≠ "" then chunks ++ [pyStrip current] else chunks)
          (s ++ " ") rest := rfl

theorem splitSentAux_no_ws : ∀ (l cur : List Char), (∀ c ∈ l, isPyWS c = false) →
    splitSentAux false cur l = [cur.reverse ++ l] := by
  intro l
  induction l with
  | nil =>
    intro cur _
    rw [splitSentAux_nil]
    simp
  | cons c cs ih =>
    intro cur h
    have hc : isPyWS c = false := h c (by simp)
    rw [splitSentAux_cons_false, if_neg (by simp [hc])]
    rw [ih (c :: cur) (fun x hx => h x (List.mem_cons_of_mem c hx))]
    simp

/-! ## Claim C5 -/

theorem length_longSentence : longSentence.length = 3001 := by
  rw [longSentence, length_mk, List.length_replicate]

theorem no_ws_longSentence : ∀ c ∈ longSentence.toList, isPyWS c = false := by
  intro c hc
  rw [longSentence, toList_mk] at hc
  rw [List.eq_of_mem_replicate hc]
  rfl

theorem splitSentences_longSentence : splitSentences longSentence = [longSentence] := by
  rw [splitSentences, splitSentAux_no_ws _ [] no_ws_longSentence]
  simp only [List.map_cons, List.map_nil, List.reverse_nil, List.nil_append, mk_toList]

/-- C5 counterexample: a single 3001-character sentence with no sentence
terminator is returned by the splitter as one chunk of length 3001, exceeding
the provider maximum of 3000 used by the LLM variant — so chunks are not
bounded by the provider-specific maximum. -/
theorem splitText_overlong_chunk :
    splitText longSentence 3000 = [longSentence]
      ∧ longSentence.length = 3001
      ∧ ¬ ∀ c ∈ splitText longSentence 3000, c.length ≤ 3000 := by
  have hlen : longSentence.length = 3001 := length_longSentence
  have hempty : ("" : String).length = 0 := rfl
  have hsplit : splitText longSentence 3000 = [longSentence] := by
    rw [splitText, if_neg (by omega)]
    rw [splitSentences_longSentence]
    rw [buildChunks, if_neg (by omega)]
    rw [if_neg (by simp)]
    rw [buildChunks, if_pos (append_space_ne_empty longSentence)]
    rw [pyStrip_no_ws_space longSentence no_ws_longSentence]
    rfl
  refine ⟨hsplit, hlen, ?_⟩
  intro hall
  have := hall longSentence (by rw [hsplit]; simp)
  omega

theorem buildChunks_length_bound (maxLength : Nat) (S : List String) :
    ∀ (sentences chunks : List String) (current : String),
      (∀ s ∈ sentences, s ∈ S) →
      (∀ c ∈ chunks, c.length ≤ maxLength ∨ ∃ s ∈ S, c.length ≤ s.length) →
      (current = "" ∨ current.length ≤ maxLength ∨ ∃ s ∈ S, current = s ++ " ") →
      ∀ c ∈ buildChunks maxLength chunks current sentences,
        c.length ≤ maxLength ∨ ∃ s ∈ S, c.length ≤ s.length := by
  intro sentences
  induction sentences with
  | nil =>
    intro chunks current _ hchunks hcur c hc
    rw [buildChunks] at hc
    by_cases hne : current = ""
    · rw [if_neg (by simp [hne])] at hc
      exact hchunks c hc
    · rw [if_pos hne] at hc
      rcases List.mem_append.1 hc with h | h
      · exact hchunks c h
      · have hceq : c = pyStrip current := by simpa using h
        subst hceq
        rcases hcur with h0 | hlen | ⟨s, hs, hcur⟩
        · exact absurd h0 hne
        · exact Or.inl (le_trans (pyStrip_length_le current) hlen)
        · rw [hcur]
          exact Or.inr ⟨s, hs, pyStrip_append_space_length s⟩
  | cons s rest ih =>
    intro chunks current hsub hchunks hcur c hc
    rw [buildChunks] at hc
    have hsS : s ∈ S := hsub s (by simp)
    have hsub2 : ∀ x ∈ rest, x ∈ S := fun x hx => hsub x (by simp [hx])
    by_cases hlen : current.length + s.length < maxLength
    · rw [if_pos hlen] at hc
      refine ih chunks (current ++ s ++ " ") hsub2 hchunks ?_ c hc
      right; left
      rw [String.length_append, String.length_append]
      have hsp : (" " : String).length = 1 := rfl
      omega
    · rw [if_neg hlen] at hc
      refine ih _ (s ++ " ") hsub2 ?_ (Or.inr (Or.inr ⟨s, hsS, rfl⟩)) c hc
      by_cases hne : current = ""
      · rw [if_neg (by simp [hne])]
        exact hchunks
      · rw [if_pos hne]
        intro c2 hc2
        rcases List.mem_append.1 hc2 with h | h
        · exact hchunks c2 h
        · have hceq : c2 = pyStrip current := by simpa using h
          subst hceq
          rcases hcur with h0 | hlen2 | ⟨t, ht, hcur⟩
          · exact absurd h0 hne
          · exact Or.inl (le_trans (pyStrip_length_le current) hlen2)
          · rw [hcur]
            exact Or.inr ⟨t, ht, pyStrip_append_space_length t⟩

/-- C5 (amended): every chunk produced by the splitter either fits the
provider maximum or is (at most as long as) one single sentence of the split —
the splitter never cuts inside a sentence, so a single sentence longer than
the maximum becomes one over-long chunk; there is no paragraph-boundary
strategy, only the sentence-boundary split. -/
theorem splitText_chunk_length_bound (text : String) (maxLength : Nat) :
    ∀ c ∈ splitText text maxLength,
      c.length ≤ maxLength ∨ ∃ s ∈ splitSentences text, c.length ≤ s.length := by
  intro c hc
  rw [splitText] at hc
  by_cases h : text.length ≤ maxLength
  · rw [if_pos h] at hc
    have hceq : c = text := by simpa using hc
    subst hceq
    exact Or.inl h
  · rw [if_neg h] at hc
    exact buildChunks_length_bound maxLength (splitSentences text) (splitSentences text) [] ""
      (fun s hs => hs) (by simp) (Or.inl rfl) c hc

/-- C5 witness: the amended theorem applied to the text "ab. cd." with
maximum length 3, whose first chunk "ab." fits the maximum. -/
theorem splitText_chunk_length_bound_witness :
    "ab." ∈ splitText "ab. cd." 3 ∧
      (("ab." : String).length ≤ 3 ∨
        ∃ s ∈ splitSentences "ab. cd.", ("ab." : String).length ≤ s.length) :=
  ⟨by decide, splitText_chunk_length_bound "ab. cd." 3 "ab." (by decide)⟩

/-! ## General lemmas about the sentence split of well-formed texts -/

theorem noSplitPoint_cons_cons (a b : Char) (rest : List Char) :
    noSplitPoint (a :: b :: rest) =
      (!(isSentenceEnd a && isPyWS b) && noSplitPoint (b :: rest)) := rfl

theorem noSplitPoint_of_no_ws : ∀ (l : List Char), (∀ c ∈ l, isPyWS c = false) →
    noSplitPoint l = true := by
  intro l
  induction l with
  | nil => intro _; rfl
  | cons a t ih =>
    intro h
    cases t with
    | nil => rfl
    | cons b t2 =>
      rw [noSplitPoint_cons_cons]
      have hb : isPyWS b = false := h b (by simp)
      rw [hb]
      simp [ih (fun x hx => h x (List.mem_cons_of_mem a hx))]

theorem noSplitPoint_elim : ∀ (X : List Char) (p c : Char) (Y : List Char),
    noSplitPoint (X ++ p :: c :: Y) = true → (isSentenceEnd p && isPyWS c) = false := by
  intro X
  induction X with
  | nil =>
    intro p c Y h
    rw [List.nil_append, noSplitPoint_cons_cons, Bool.and_eq_true] at h
    have h1 := h.1
    cases hb : (isSentenceEnd p && isPyWS c)
    · rfl
    · rw [hb] at h1
      exact absurd h1 (by simp)
  | cons x X ih =>
    intro p c Y h
    have h2 : noSplitPoint (X ++ p :: c :: Y) = true := by
      cases X with
      | nil =>
        rw [List.cons_append, List.nil_append, noSplitPoint_cons_cons, Bool.and_eq_true] at h
        rw [List.nil_append]
        exact h.2
      | cons x2 X2 =>
        rw [List.cons_append, List.cons_append, noSplitPoint_cons_cons, Bool.and_eq_true] at h
        rw [List.cons_append]
        exact h.2
    exact ih p c Y h2

theorem sentenceEnd_not_ws (c : Char) (h : isSentenceEnd c = true) : isPyWS c = false := by
  rw [isSentenceEnd] at h
  simp only [Bool.or_eq_true, decide_eq_true_eq] at h
  rcases h with ((((h | h) | h) | h) | h) | h <;> subst h <;> rfl

theorem goodChars_elim {l : List Char} (h : goodChars l = true) :
    l ≠ [] ∧ (∀ c cs, l = c :: cs → isPyWS c = false) ∧
      (∃ d, l.getLast? = some d ∧ isSentenceEnd d = true) ∧ noSplitPoint l = true := by
  cases l with
  | nil => exact absurd h (by rw [goodChars]; simp)
  | cons c cs =>
    rw [goodChars] at h
    simp only [Bool.and_eq_true] at h
    obtain ⟨⟨h1, h2⟩, h3⟩ := h
    refine ⟨by simp, ?_, ?_, h3⟩
    · intro c2 cs2 he
      injection he with he1 he2
      subst he1
      simpa using h1
    · refine ⟨(c :: cs).getLastD ' ', ?_, h2⟩
      rw [List.getLastD_eq_getLast?]
      cases hg : (c :: cs).getLast? with
      | none => simp [List.getLast?_eq_none_iff] at hg
      | some d => rfl

theorem splitSentAux_walk : ∀ (s cur rest : List Char),
    noSplitPoint (cur.reverse ++ s) = true →
    splitSentAux false cur (s ++ rest) = splitSentAux false (s.reverse ++ cur) rest := by
  intro s
  induction s with
  | nil => intro cur rest _; simp
  | cons c cs ih =>
    intro cur rest h
    rw [List.cons_append, splitSentAux_cons_false]
    cases cur with
    | nil =>
      rw [if_neg (show ¬ ((isPyWS c && false) = true) by simp)]
      have hnext : noSplitPoint (([c] : List Char).reverse ++ cs) = true := by
        simpa using h
      rw [ih [c] rest hnext]
      simp
    | cons p cur2 =>
      have hlist : (p :: cur2).reverse ++ c :: cs = cur2.reverse ++ p :: c :: cs := by
        simp
      rw [hlist] at h
      have hp : (isSentenceEnd p && isPyWS c) = false := noSplitPoint_elim cur2.reverse p c cs h
      rw [if_neg ?g]
      case g =>
        show ¬ ((isPyWS c && isSentenceEnd p) = true)
        rw [Bool.and_comm]
        simp [hp]
      have hnext : noSplitPoint ((c :: p :: cur2).reverse ++ cs) = true := by
        have he : (c :: p :: cur2).reverse ++ cs = cur2.reverse ++ p :: c :: cs := by simp
        rw [he]
        exact h
      rw [ih (c :: p :: cur2) rest hnext]
      simp [List.reverse_cons, List.append_assoc]

theorem splitSentAux_boundary (p : Char) (cur2 rest : List Char) (c : Char)
    (hterm : isSentenceEnd p = true) (hws : isPyWS c = true) :
    splitSentAux false (p :: cur2) (c :: rest) =
      (p :: cur2).reverse :: splitSentAux true [] rest := by
  rw [splitSentAux_cons_false, if_pos (by simp [hws, hterm])]

theorem splitSentAux_enter (c : Char) (rest : List Char) (h : isPyWS c = false) :
    splitSentAux true [] (c :: rest) = splitSentAux false [] (c :: rest) := by
  rw [splitSentAux_cons_true, if_neg (by simp [h]), splitSentAux_cons_false, if_neg (by simp)]

theorem charsJoin_singleton (s : List Char) : charsJoin [s] = s := rfl

theorem charsJoin_cons (s : List Char) (ss : List (List Char)) (h : ss ≠ []) :
    charsJoin (s :: ss) = s ++ ' ' :: charsJoin ss := by
  cases ss with
  | nil => exact absurd rfl h
  | cons t ts => rfl

theorem splitSentAux_joined : ∀ (ss : List (List Char)), (∀ s ∈ ss, goodChars s = true) →
    ss ≠ [] → splitSentAux false [] (charsJoin ss) = ss := by
  intro ss
  induction ss with
  | nil => intro _ h; exact absurd rfl h
  | cons s ss ih =>
    intro hgood _
    have hs : goodChars s = true := hgood s (by simp)
    obtain ⟨hne, hhead, ⟨d, hlast, hterm⟩, hnsp⟩ := goodChars_elim hs
    cases ss with
    | nil =>
      rw [charsJoin_singleton]
      have hw := splitSentAux_walk s [] [] (by simpa using hnsp)
      rw [List.append_nil] at hw
      rw [hw, List.append_nil, splitSentAux_nil, List.reverse_reverse]
    | cons s2 ss2 =>
      rw [charsJoin_cons s (s2 :: ss2) (by simp)]
      have hw := splitSentAux_walk s [] (' ' :: charsJoin (s2 :: ss2)) (by simpa using hnsp)
      rw [hw, List.append_nil]
      have hsrev : s.reverse.head? = some d := by
        rw [List.head?_reverse]
        exact hlast
      cases hrev : s.reverse with
      | nil =>
        rw [hrev] at hsrev
        simp at hsrev
      | cons p tail =>
        rw [hrev] at hsrev
        have hpd : p = d := by simpa using hsrev
        subst hpd
        rw [splitSentAux_boundary p tail _ ' ' hterm rfl]
        have hs2 : (p :: tail).reverse = s := by rw [← hrev, List.reverse_reverse]
        rw [hs2]
        have hs2good : goodChars s2 = true := hgood s2 (by simp)
        obtain ⟨hne2, hhead2, _, _⟩ := goodChars_elim hs2good
        obtain ⟨c2, t2, hs2c⟩ : ∃ c2 t2, s2 = c2 :: t2 := by
          cases s2 with
          | nil => exact absurd rfl hne2
          | cons a b => exact ⟨a, b, rfl⟩
        have hc2 : isPyWS c2 = false := hhead2 c2 t2 hs2c
        have hJ : ∃ r, charsJoin (s2 :: ss2) = c2 :: r := by
          cases ss2 with
          | nil => exact ⟨t2, by rw [charsJoin_singleton, hs2c]⟩
          | cons s3 ss3 =>
            refine ⟨t2 ++ ' ' :: charsJoin (s3 :: ss3), ?_⟩
            rw [charsJoin_cons s2 (s3 :: ss3) (by simp), hs2c]
            simp
        obtain ⟨r, hJ⟩ := hJ
        rw [hJ, splitSentAux_enter c2 r hc2, ← hJ]
        rw [ih (fun x hx => hgood x (List.mem_cons_of_mem s hx)) (by simp)]

theorem pyJoin_cons2 (s t : String) (ts : List String) :
    pyJoin " " (s :: t :: ts) = s ++ " " ++ pyJoin " " (t :: ts) := rfl

theorem pyJoin_toList : ∀ (ss : List String),
    (pyJoin " " ss).toList = charsJoin (ss.map String.toList) := by
  intro ss
  induction ss with
  | nil => rfl
  | cons s ss ih =>
    cases ss with
    | nil => rfl
    | cons t ts =>
      rw [pyJoin_cons2, toList_append, toList_append, space_toList, ih]
      simp only [List.map_cons]
      rw [charsJoin_cons (String.toList s) (String.toList t :: List.map String.toList ts)
        (by simp)]
      simp [List.append_assoc]

theorem splitSentences_joined (sentences : List String)
    (hgood : ∀ s ∈ sentences, goodSentence s = true) (hne : sentences ≠ []) :
    splitSentences (pyJoin " " sentences) = sentences := by
  rw [splitSentences, pyJoin_toList]
  rw [splitSentAux_joined (sentences.map String.toList) ?h1 ?h2]
  · calc (sentences.map String.toList).map String.mk
        = sentences.map (fun s => String.mk s.toList) := by rw [List.map_map]; rfl
      _ = sentences.map id := List.map_congr_left (fun s _ => mk_toList s)
      _ = sentences := List.map_id sentences
  case h1 =>
    intro s hs
    obtain ⟨t, ht, rfl⟩ := List.mem_map.1 hs
    exact hgood t ht
  case h2 => simpa using hne

/-! ## General lemmas about rejoining chunks -/

theorem empty_append_str (s : String) : "" ++ s = s := rfl

theorem pyJoin_cons_ne (s : String) (ss : List String) (h : ss ≠ []) :
    pyJoin " " (s :: ss) = s ++ " " ++ pyJoin " " ss := by
  cases ss with
  | nil => exact absurd rfl h
  | cons t ts => rfl

theorem pyJoin_append (a b : List String) (ha : a ≠ []) (hb : b ≠ []) :
    pyJoin " " (a ++ b) = pyJoin " " a ++ " " ++ pyJoin " " b := by
  induction a with
  | nil => exact absurd rfl ha
  | cons x a ih =>
    cases a with
    | nil =>
      rw [List.cons_append, List.nil_append, pyJoin_cons_ne x b hb]
      rfl
    | cons y a2 =>
      rw [List.cons_append, pyJoin_cons_ne x (y :: a2 ++ b) (by simp), ih (by simp),
        pyJoin_cons_ne x (y :: a2) (by simp)]
      simp [String.append_assoc]

theorem pyJoin_map_flatten : ∀ (groups : List (List String)),
    (∀ g ∈ groups, g ≠ []) →
    pyJoin " " (groups.map (pyJoin " ")) = pyJoin " " groups.flatten := by
  intro groups
  induction groups with
  | nil => intro _; rfl
  | cons g gs ih =>
    intro h
    have hg : g ≠ [] := h g (by simp)
    cases gs with
    | nil =>
      rw [List.map_cons, List.map_nil, List.flatten_cons, List.flatten_nil, List.append_nil]
      rfl
    | cons g2 gs2 =>
      have hflat : (g2 :: gs2).flatten ≠ [] := by
        have hg2 : g2 ≠ [] := h g2 (by simp)
        rw [List.flatten_cons]
        intro hc
        exact hg2 (List.append_eq_nil.1 hc).1
      rw [List.map_cons, pyJoin_cons_ne _ _ (by simp), ih (fun x hx => h x (by simp [hx]))]
      rw [show (g :: g2 :: gs2).flatten = g ++ (g2 :: gs2).flatten from List.flatten_cons]
      rw [pyJoin_append g (g2 :: gs2).flatten hg hflat]

theorem pyStripList_sandwich (c d : Char) (m : List Char) (hc : isPyWS c = false)
    (hd : isPyWS d = false) (hlast : (c :: m).getLast? = some d) :
    pyStripList ((c :: m) ++ [' ']) = c :: m := by
  rw [pyStripList, List.cons_append, List.dropWhile_cons, if_neg (by simp [hc])]
  have hrev : (c :: (m ++ [' '])).reverse = ' ' :: (c :: m).reverse := by simp
  rw [hrev, List.dropWhile_cons, if_pos (show isPyWS ' ' = true from rfl)]
  have hhead : (c :: m).reverse.head? = some d := by
    rw [List.head?_reverse]
    exact hlast
  cases hrev2 : (c :: m).reverse with
  | nil =>
    rw [hrev2] at hhead
    simp at hhead
  | cons x xs =>
    rw [hrev2] at hhead
    have hxd : x = d := by simpa using hhead
    rw [List.dropWhile_cons, if_neg (by simp [hxd, hd]), ← hrev2, List.reverse_reverse]

theorem charsJoin_shape : ∀ (ss : List (List Char)), ss ≠ [] →
    (∀ s ∈ ss, goodChars s = true) →
    ∃ c m, charsJoin ss = c :: m ∧ isPyWS c = false ∧
      ∃ d, (c :: m).getLast? = some d ∧ isPyWS d = false := by
  intro ss
  induction ss with
  | nil => intro h _; exact absurd rfl h
  | cons s ss ih =>
    intro _ hgood
    obtain ⟨hne, hhead, ⟨d0, hlast0, hterm0⟩, _⟩ := goodChars_elim (hgood s (by simp))
    obtain ⟨c, t, hsc⟩ : ∃ c t, s = c :: t := by
      cases s with
      | nil => exact absurd rfl hne
      | cons a b => exact ⟨a, b, rfl⟩
    have hc : isPyWS c = false := hhead c t hsc
    cases ss with
    | nil =>
      refine ⟨c, t, by rw [charsJoin_singleton, hsc], hc, d0, ?_, sentenceEnd_not_ws d0 hterm0⟩
      rw [← hsc]
      exact hlast0
    | cons s2 ss2 =>
      obtain ⟨c2, m2, hcm2, hc2, d2, hlast2, hd2⟩ :=
        ih (by simp) (fun x hx => hgood x (List.mem_cons_of_mem s hx))
      refine ⟨c, t ++ ' ' :: charsJoin (s2 :: ss2), ?_, hc, d2, ?_, hd2⟩
      · rw [charsJoin_cons s (s2 :: ss2) (by simp), hsc]
        simp
      · have hsplit2 : c :: (t ++ ' ' :: charsJoin (s2 :: ss2))
            = (c :: t ++ [' ']) ++ charsJoin (s2 :: ss2) := by simp
        rw [hsplit2, List.getLast?_append, hcm2, hlast2]
        rfl

theorem pyStrip_group (g : List String) (hg : g ≠ [])
    (hgood : ∀ s ∈ g, goodSentence s = true) :
    pyStrip (pyJoin " " g ++ " ") = pyJoin " " g := by
  show String.mk (pyStripList (pyJoin " " g ++ " ").toList) = pyJoin " " g
  rw [toList_append, space_toList, pyJoin_toList]
  obtain ⟨c, m, hcm, hc, d, hlast, hd⟩ := charsJoin_shape (g.map String.toList)
    (by simpa using hg)
    (by intro x hx; obtain ⟨t, ht, rfl⟩ := List.mem_map.1 hx; exact hgood t ht)
  rw [hcm, pyStripList_sandwich c d m hc hd hlast, ← hcm, ← pyJoin_toList]
  exact mk_toList _

theorem buildChunks_join (maxLength : Nat) :
    ∀ (sentences : List String) (groups : List (List String)) (gcur : List String),
      (∀ s ∈ sentences, goodSentence s = true) →
      (∀ g ∈ groups, g ≠ [] ∧ ∀ s ∈ g, goodSentence s = true) →
      (∀ s ∈ gcur, goodSentence s = true) →
      pyJoin " " (buildChunks maxLength (groups.map (pyJoin " "))
          (if gcur = [] then "" else pyJoin " " gcur ++ " ") sentences)
        = pyJoin " " (groups.flatten ++ (gcur ++ sentences)) := by
  intro sentences
  induction sentences with
  | nil =>
    intro groups gcur _ hgroups hgcur
    by_cases hg : gcur = []
    · subst hg
      rw [if_pos rfl, buildChunks_nil, if_neg (by simp)]
      rw [pyJoin_map_flatten groups (fun g hgm => (hgroups g hgm).1)]
      simp
    · rw [if_neg hg, buildChunks_nil, if_pos (append_space_ne_empty _)]
      rw [pyStrip_group gcur hg hgcur]
      have hmap : groups.map (pyJoin " ") ++ [pyJoin " " gcur]
          = (groups ++ [gcur]).map (pyJoin " ") := by
        rw [List.map_append]
        rfl
      rw [hmap, pyJoin_map_flatten (groups ++ [gcur]) ?hne]
      · rw [List.flatten_append]
        simp
      case hne =>
        intro g hgm
        rcases List.mem_append.1 hgm with h | h
        · exact (hgroups g h).1
        · have hgg : g = gcur := by simpa using h
          rw [hgg]
          exact hg
  | cons s rest ih =>
    intro groups gcur hsent hgroups hgcur
    have hsgood : goodSentence s = true := hsent s (by simp)
    have hrest : ∀ x ∈ rest, goodSentence x = true :=
      fun x hx => hsent x (List.mem_cons_of_mem s hx)
    have hsingle : ∀ x ∈ ([s] : List String), goodSentence x = true := by
      intro x hx
      have hxs : x = s := by simpa using hx
      rw [hxs]
      exact hsgood
    rw [buildChunks_cons]
    by_cases hlen :
        (if gcur = [] then "" else pyJoin " " gcur ++ " ").length + s.length < maxLength
    · rw [if_pos hlen]
      have hcur : (if gcur = [] then "" else pyJoin " " gcur ++ " ") ++ s ++ " "
          = (if gcur ++ [s] = [] then "" else pyJoin " " (gcur ++ [s]) ++ " ") := by
        rw [if_neg (show ¬ (gcur ++ [s] = []) by simp)]
        by_cases hg : gcur = []
        · subst hg
          rw [if_pos rfl, List.nil_append, empty_append_str]
          rfl
        · rw [if_neg hg, pyJoin_append gcur [s] hg (by simp)]
          rfl
      rw [hcur]
      have hgall : ∀ x ∈ gcur ++ [s], goodSentence x = true := by
        intro x hx
        rcases List.mem_append.1 hx with h | h
        · exact hgcur x h
        · have hxs : x = s := by simpa using h
          rw [hxs]
          exact hsgood
      rw [ih groups (gcur ++ [s]) hrest hgroups hgall]
      simp [List.append_assoc]
    · rw [if_neg hlen]
      by_cases hg : gcur = []
      · subst hg
        have hcur0 : (if ([] : List String) = [] then "" else pyJoin " " [] ++ " ") = "" := rfl
        rw [hcur0, if_neg (by simp)]
        have hcur1 : (s ++ " ") = (if ([s] : List String) = [] then "" else pyJoin " " [s] ++ " ") := rfl
        rw [hcur1, ih groups [s] hrest hgroups hsingle]
        simp
      · have hcne : (if gcur = [] then "" else pyJoin " " gcur ++ " ") ≠ "" := by
          rw [if_neg hg]
          exact append_space_ne_empty _
        rw [if_pos hcne, if_neg hg, pyStrip_group gcur hg hgcur]
        have hmap : groups.map (pyJoin " ") ++ [pyJoin " " gcur]
            = (groups ++ [gcur]).map (pyJoin " ") := by
          rw [List.map_append]
          rfl
        rw [hmap]
        have hgroups2 : ∀ g ∈ groups ++ [gcur], g ≠ [] ∧ ∀ x ∈ g, goodSentence x = true := by
          intro g hgm
          rcases List.mem_append.1 hgm with h | h
          · exact hgroups g h
          · have hgg : g = gcur := by simpa using h
            rw [hgg]
            exact ⟨hg, hgcur⟩
        have hcur1 : (s ++ " ") = (if ([s] : List String) = [] then "" else pyJoin " " [s] ++ " ") := rfl
        rw [hcur1, ih (groups ++ [gcur]) [s] hrest hgroups2 hsingle]
        rw [List.flatten_append]
        simp [List.append_assoc]

/-! ## Claim C2 -/

theorem newlineText_toList :
    newlineText.toList = sentA.toList ++ '\n' :: sentB.toList := by
  rw [newlineText, toList_append, toList_append]
  have hnl : ("\n" : String).toList = ['\n'] := rfl
  rw [hnl]
  simp

theorem no_ws_sentA : ∀ c ∈ sentA.toList, isPyWS c = false := by
  intro c hc
  rw [sentA, toList_mk] at hc
  rcases List.mem_append.1 hc with h | h
  · rw [List.eq_of_mem_replicate h]
    rfl
  · have hcd : c = '.' := by simpa using h
    rw [hcd]
    rfl

theorem no_ws_sentB : ∀ c ∈ sentB.toList, isPyWS c = false := by
  intro c hc
  rw [sentB, toList_mk] at hc
  rcases List.mem_append.1 hc with h | h
  · rw [List.eq_of_mem_replicate h]
    rfl
  · have hcd : c = '.' := by simpa using h
    rw [hcd]
    rfl

theorem length_sentA : sentA.length = 2999 := by
  rw [sentA, length_mk, List.length_append, List.length_replicate, List.length_singleton]

theorem length_sentB : sentB.length = 2501 := by
  rw [sentB, length_mk, List.length_append, List.length_replicate, List.length_singleton]

theorem splitSentences_newlineText : splitSentences newlineText = [sentA, sentB] := by
  rw [splitSentences, newlineText_toList]
  rw [splitSentAux_walk sentA.toList [] ('\n' :: sentB.toList)
    (by rw [List.reverse_nil, List.nil_append]; exact noSplitPoint_of_no_ws _ no_ws_sentA)]
  rw [List.append_nil]
  have hrev : sentA.toList.reverse = '.' :: List.replicate 2998 'a' := by
    rw [sentA, toList_mk, List.reverse_append, List.reverse_replicate]
    rfl
  rw [hrev]
  rw [splitSentAux_boundary '.' (List.replicate 2998 'a') sentB.toList '\n' rfl rfl]
  have hrev2 : ('.' :: List.replicate 2998 'a').reverse = sentA.toList := by
    rw [← hrev, List.reverse_reverse]
  rw [hrev2]
  have hB : sentB.toList = 'b' :: (List.replicate 2499 'b' ++ ['.']) := by
    rw [sentB, toList_mk, show (2500 : Nat) = 2499 + 1 from rfl, List.replicate_succ]
    rfl
  rw [hB, splitSentAux_enter 'b' (List.replicate 2499 'b' ++ ['.']) rfl, ← hB]
  rw [splitSentAux_no_ws sentB.toList [] no_ws_sentB]
  simp only [List.reverse_nil, List.nil_append, List.map_cons, List.map_nil, mk_toList]

theorem splitText_newlineText : splitText newlineText 5000 = [sentA, sentB] := by
  have hlenA := length_sentA
  have hlenB := length_sentB
  have hlennl : newlineText.length = 5501 := by
    rw [newlineText, String.length_append, String.length_append, hlenA, hlenB]
    rfl
  have h0 : ("" : String).length = 0 := rfl
  have h1 : (" " : String).length = 1 := rfl
  rw [splitText, if_neg (by omega)]
  rw [splitSentences_newlineText]
  rw [buildChunks_cons]
  rw [if_pos (show ("" : String).length + sentA.length < 5000 by omega)]
  rw [buildChunks_cons]
  rw [if_neg (show ¬ (("" ++ sentA ++ " ").length + sentB.length < 5000) by
    rw [String.length_append, String.length_append, h1, hlenB, h0, hlenA]
    omega)]
  rw [if_pos (show ("" ++ sentA ++ " ") ≠ "" by rw [empty_append_str]; exact append_space_ne_empty sentA)]
  rw [empty_append_str]
  rw [pyStrip_no_ws_space sentA no_ws_sentA]
  rw [buildChunks_nil]
  rw [if_pos (append_space_ne_empty sentB)]
  rw [pyStrip_no_ws_space sentB no_ws_sentB]
  rfl

/-- C2 counterexample: for the 5501-character text whose two sentences are
separated by a newline, splitting with `max_length = 5000` and rejoining the
chunks (the code always rejoins with a single space, translator.py line 408)
yields the two sentences joined by a space — the newline separator is lost,
so the round trip does not reproduce the original text. -/
theorem chunk_roundtrip_newline_counterexample :
    pyJoin " " (splitText newlineText 5000) = sentA ++ " " ++ sentB
      ∧ sentA ++ " " ++ sentB ≠ newlineText := by
  constructor
  · rw [splitText_newlineText]
    rfl
  · intro h
    have hd : (sentA ++ " " ++ sentB).toList = newlineText.toList := by rw [h]
    rw [toList_append, toList_append, space_toList, newlineText_toList] at hd
    rw [List.append_assoc] at hd
    have hcancel := List.append_cancel_left hd
    simp at hcancel

/-- C2 (amended): the splitter has a single strategy — the sentence-boundary
split — and the chunks are always rejoined with a single space; the round
trip reproduces the original exactly for every text whose sentences
(nonempty, not starting with whitespace, ending with a sentence terminator,
with no internal terminator-followed-by-whitespace pair) are separated by
single spaces, for every maximum length; texts with other inter-sentence
whitespace (such as newlines) are normalized to single spaces and not
reproduced. -/
theorem chunk_roundtrip_single_space (sentences : List String) (maxLength : Nat)
    (h1 : sentences ≠ []) (h2 : ∀ s ∈ sentences, goodSentence s = true) :
    pyJoin " " (splitText (pyJoin " " sentences) maxLength) = pyJoin " " sentences := by
  rw [splitText]
  by_cases hlen : (pyJoin " " sentences).length ≤ maxLength
  · rw [if_pos hlen]
    rfl
  · rw [if_neg hlen]
    rw [splitSentences_joined sentences h2 h1]
    have hmain := buildChunks_join maxLength sentences [] [] h2 (by simp) (by simp)
    have hcur0 : (if ([] : List String) = [] then "" else pyJoin " " [] ++ " ") = "" := rfl
    rw [hcur0] at hmain
    simpa using hmain

/-- C2 witness: the amended theorem applied to the two sentences "ab." and
"cd." with maximum length 3, where the splitter produces two chunks and the
space-rejoin reproduces the joined text "ab. cd." exactly. -/
theorem chunk_roundtrip_single_space_witness :
    (["ab.", "cd."] : List String) ≠ [] ∧ (∀ s ∈ (["ab.", "cd."] : List String), goodSentence s = true) ∧
      pyJoin " " (splitText (pyJoin " " ["ab.", "cd."]) 3) = pyJoin " " ["ab.", "cd."] :=
  ⟨by decide, by decide, chunk_roundtrip_single_space ["ab.", "cd."] 3 (by decide) (by decide)⟩

end EasyPdfForYou
